import Mathlib

set_option maxRecDepth 8000
set_option autoImplicit false

/-!
Shallow embedding of `scripts/fetch-books.js` (the Vampirism lore-book
aggregation and rendering script) and verification of its specification.

Strings are modelled as `List Char`; JavaScript objects are modelled as
association lists (`olookup` returns the first binding, matching object
key lookup); `undefined` / failed fetches are modelled with `Option`; the
truthiness of JavaScript's `||` and `!x` on strings (empty string is
falsy) is modelled explicitly by `jsOrS` and the empty-list tests below.
-/

abbrev Str := List Char

/-- Boolean string prefix test, used to model `String.prototype.startsWith`
and as a building block for substring search. -/
def isPfx : Str → Str → Bool
  | [], _ => true
  | _ :: _, [] => false
  | a :: u, b :: v => if a = b then isPfx u v else false

/-- Object property lookup on an association list: first binding wins,
absent key gives `none` (JavaScript `undefined`). -/
def olookup {α : Type} : List (Str × α) → Str → Option α
  | [], _ => none
  | (k, v) :: rest, key => if k = key then some v else olookup rest key

/-- JavaScript `a || b` for `a` an optionally-present string: `undefined`
and the empty string are falsy and select `b`. -/
def jsOrS : Option Str → Str → Str
  | some s, y => if s = [] then y else s
  | none, y => y

/-- Global single-character replacement, modelling
`String.prototype.replace` with a global regex whose pattern is one
literal character (`/_/g`, `/\n/g`, `/&/g`, ...). -/
def replaceChar (c : Char) (rep : Str) : Str → Str
  | [] => []
  | a :: rest => if a = c then rep ++ replaceChar c rep rest else a :: replaceChar c rep rest

/-- Substring test: does `p` occur contiguously inside the second string? -/
def containsSub (p : Str) : Str → Bool
  | [] => p.isEmpty
  | a :: rest => if isPfx p (a :: rest) = true then true else containsSub p rest

/-- Number of positions at which `p` occurs (used to count HTML blocks). -/
def countOcc (p : Str) : Str → Nat
  | [] => 0
  | a :: rest => (if isPfx p (a :: rest) = true then 1 else 0) + countOcc p rest

/-- A JavaScript value, as far as the script's dynamic type tests
(`typeof x !== 'string'`) need to distinguish. -/
inductive JSValue where
  | vstr (s : Str)
  | vnum (n : Int)
  | vbool (b : Bool)
  | vnull
  | vundef
  deriving DecidableEq

/-- The `typeof v === 'string'` test. -/
def isStr : JSValue → Bool
  | .vstr _ => true
  | _ => false

/-- The Minecraft formatting-code sentinel `§` (U+00A7), the first
character of the two-character style sequences stripped by the script. -/
def sect : Char := '\u00A7'

/-- ECMAScript line terminators, which the regex metacharacter `.`
(without the `s` flag) does not match. -/
def lineTerm (c : Char) : Bool :=
  c = '\n' || c = '\r' || c = '\u2028' || c = '\u2029'

/-- Embedding of `stripFormattingCodes` on strings:
`text.replace(/§./g, '')`.  The regex scan removes each `§` together with
the single following character, except that `.` does not match a line
terminator; a `§` that is last in the string, or is followed by a line
terminator, is kept and scanning resumes at the next character. -/
def stripFormattingCodes : Str → Str
  | [] => []
  | [c] => [c]
  | c :: d :: rest =>
    if c = sect then
      (if lineTerm d = true then c :: stripFormattingCodes (d :: rest)
       else stripFormattingCodes rest)
    else c :: stripFormattingCodes (d :: rest)

/-- Embedding of `stripFormattingCodes` at the JavaScript-value level:
`if (typeof text !== 'string') return text;`. -/
def stripFormattingCodesVal : JSValue → JSValue
  | .vstr s => .vstr (stripFormattingCodes s)
  | v => v

/-- Embedding of `escapeHTML` on strings: four sequential global
replacements, `&` first, then `<`, `>`, `"`. -/
def escapeHTML (s : Str) : Str :=
  replaceChar '\"' ("&quot;".toList)
    (replaceChar '>' ("&gt;".toList)
      (replaceChar '<' ("&lt;".toList)
        (replaceChar '&' ("&amp;".toList) s)))

/-- Embedding of `escapeHTML` at the JavaScript-value level:
`if (typeof str !== 'string') return '';`. -/
def escapeHTMLVal : JSValue → Str
  | .vstr s => escapeHTML s
  | _ => []

/-- Characters removed by `String.prototype.trim` (ECMAScript WhiteSpace
and LineTerminator code points). -/
def jsTrimWS (c : Char) : Bool :=
  c = ' ' || c = '\t' || c = '\n' || c = '\r' || c = '\u000b' || c = '\u000c' ||
  c = '\u00A0' || c = '\uFEFF' || c = '\u1680' ||
  ('\u2000' ≤ c && c ≤ '\u200A') ||
  c = '\u2028' || c = '\u2029' || c = '\u202F' || c = '\u205F' || c = '\u3000'

/-- Embedding of `String.prototype.trim`. -/
def trimJS (s : Str) : Str :=
  ((s.dropWhile jsTrimWS).reverse.dropWhile jsTrimWS).reverse

abbrev Table := List (Str × Str)

abbrev Tables := List (Str × Table)

/-- The fixed language list `LANGS = ['en_us', 'ru_ru', 'uk_ua']`. -/
def LANGS : List Str := ["en_us".toList, "ru_ru".toList, "uk_ua".toList]

/-- The translation key `vampire_book.vampirism.<bookId>` built by
`getBookTitle`. -/
def bookKey (bookId : Str) : Str :=
  "vampire_book.vampirism.".toList ++ bookId

/-- Embedding of `getBookTitle`:
`langTitles[lang]?.[key] || langTitles['en_us']?.[key] || bookId.replace(/_/g, ' ')`.
The two lookups use optional chaining (absent language table yields
`undefined`); `||` treats the empty string as falsy. -/
def getBookTitle (bookId : Str) (langTitles : Tables) (lang : Str) : Str :=
  let key := bookKey bookId
  jsOrS ((olookup langTitles lang).bind (fun t => olookup t key))
    (jsOrS ((olookup langTitles ("en_us".toList)).bind (fun t => olookup t key))
      (replaceChar '_' (" ".toList) bookId))

/-- Two-tier table lookup `langTitles[lang]?.[key]` as one operation. -/
def olookup2 (langTitles : Tables) (lang key : Str) : Option Str :=
  (olookup langTitles lang).bind (fun t => olookup t key)

/-- An author reference as stored in `bookAuthors`: either a literal
string or an object whose `translate` field is optionally present. -/
inductive AuthorRef where
  | astr (s : Str)
  | aobj (translate : Option Str)
  deriving DecidableEq

/-- JavaScript truthiness of an author reference: the empty string is
falsy, every other string and every object is truthy. -/
def authorTruthy : AuthorRef → Bool
  | .astr s => !s.isEmpty
  | .aobj _ => true

/-- Embedding of `resolveAuthor`:
`!author` returns `'Unknown'` for an absent entry and for the empty
string; a (non-empty) string is returned as is; an object with a truthy
`translate` key goes through the two-tier table lookup with `'Unknown'`
as final fallback; everything else yields `'Unknown'`. -/
def resolveAuthor (bookId : Str) (bookAuthors : List (Str × AuthorRef))
    (langTitles : Tables) (lang : Str) : Str :=
  match olookup bookAuthors bookId with
  | none => "Unknown".toList
  | some (.astr s) =>
    if s = [] then "Unknown".toList else s
  | some (.aobj t) =>
    match t with
    | some k =>
      if k = [] then "Unknown".toList
      else
        jsOrS (olookup2 langTitles lang k)
          (jsOrS (olookup2 langTitles ("en_us".toList) k) ("Unknown".toList))
    | none => "Unknown".toList

/-- Embedding of `filterLangTitles`: keep only the keys starting with
`vampire_book.`; a falsy argument yields the empty object. -/
def filterLangTitles : Option Table → Table
  | none => []
  | some d => d.filter (fun p => isPfx ("vampire_book.".toList) p.1)

/-- The per-item localized content document: an optional `contents` array
of page strings (`Array.isArray` gate) and an optional `credit` string. -/
structure BookContent where
  contents : Option (List Str)
  credit : Option Str
  deriving DecidableEq

abbrev BookLangs := List (Str × BookContent)

/-- The aggregate output object assembled by `main` and serialized to
`books.json`. -/
structure AggregateDoc where
  generatedAt : Str
  langTitles : Tables
  bookAuthors : List (Str × AuthorRef)
  books : List (Str × BookLangs)
  deriving DecidableEq

/-- First fixed segment of the HTML shell emitted by `buildFullHTML`,
up to the first interpolation of `generatedAt`. -/
def htmlShellA : Str :=
  ("<!DOCTYPE html>\n<html lang=\"en\">\n<head>\n  <meta charset=\"UTF-8\">\n  <meta name=\"viewport\" content=\"width=device-width, initial-scale=1.0\">\n  <title>Vampirism Mod Lore Books – Full Text</title>\n  <meta name=\"description\" content=\"Full text of all lore books from the Vampirism Minecraft mod. Last updated: ").toList

/-- Second fixed segment of the HTML shell, between the two
interpolations of `generatedAt` (contains the style sheet). -/
def htmlShellB : Str :=
  ("\">\n  <link rel=\"canonical\" href=\"https://thegridexpert.github.io/vampirism-books/books-full.html\">\n  <style>\n    body \x7b font-family: Georgia, serif; max-width: 800px; margin: 0 auto; padding: 20px; line-height: 1.7; color: #222; \x7d\n    h1 \x7b border-bottom: 2px solid #888; padding-bottom: 8px; \x7d\n    h2 \x7b margin-top: 2em; color: #4b2e83; \x7d\n    article \x7b border-bottom: 1px solid #ccc; padding-bottom: 2em; margin-bottom: 2em; \x7d\n    .page \x7b margin: 1em 0; \x7d\n    footer \x7b font-style: italic; color: #666; margin-top: 1em; \x7d\n    .meta \x7b color: #888; font-size: 0.85em; \x7d\n  </style>\n</head>\n<body>\n  <h1>Vampirism Mod – All Lore Books</h1>\n  <p class=\"meta\">Full English text of all lore books from the <a href=\"https://github.com/TeamLapen/Vampirism\">Vampirism Minecraft mod</a>. Auto-generated on ").toList

/-- Third fixed segment of the HTML shell, between the second
interpolation of `generatedAt` and the interpolation of `body`. -/
def htmlShellC : Str :=
  (".</p>\n  <p><a href=\"/\">← Back to interactive reader</a></p>\n\n").toList

/-- Final fixed segment of the HTML shell, after the body. -/
def htmlShellD : Str :=
  ("\n</body>\n</html>").toList

/-- One page block of the rendered document: strip formatting codes, trim,
skip the block entirely when the result is empty, otherwise HTML-escape
and turn newlines into `<br>`. -/
def pageHTML (page : Str) : Str :=
  let text := trimJS (stripFormattingCodes page)
  if text = [] then []
  else
    ("  <section class=\"page\">\n    <p>".toList)
      ++ replaceChar '\n' ("<br>".toList) (escapeHTML text)
      ++ ("</p>\n  </section>\n".toList)

/-- The `content.contents.forEach` loop of `buildFullHTML`. -/
def pagesHTML : List Str → Str
  | [] => []
  | p :: rest => pageHTML p ++ pagesHTML rest

/-- One `<article>` block of the rendered document: heading with resolved
title, byline with resolved author, page blocks when `contents` is an
array, and a credit footer when `credit` is truthy. -/
def articleHTML (doc : AggregateDoc) (bookId : Str) (content : BookContent) : Str :=
  let title := getBookTitle bookId doc.langTitles ("en_us".toList)
  let author := resolveAuthor bookId doc.bookAuthors doc.langTitles ("en_us".toList)
  ("<article>\n  <h2>".toList) ++ escapeHTML title
    ++ ("</h2>\n  <p><em>by ".toList) ++ escapeHTML author ++ ("</em></p>\n".toList)
    ++ (match content.contents with
        | some pages => pagesHTML pages
        | none => [])
    ++ (match content.credit with
        | some cr =>
          if cr = [] then []
          else ("  <footer>— ".toList) ++ escapeHTML (stripFormattingCodes cr)
            ++ ("</footer>\n".toList)
        | none => [])
    ++ ("</article>\n\n".toList)

/-- The item loop of `buildFullHTML`: skip an id whose `books` entry is
missing and an item with no `en_us` content, otherwise emit its article. -/
def buildBody (doc : AggregateDoc) : List Str → Str
  | [] => []
  | id :: rest =>
    (match olookup doc.books id with
     | none => []
     | some bl =>
       match olookup bl ("en_us".toList) with
       | none => []
       | some content => articleHTML doc id content)
      ++ buildBody doc rest

/-- Embedding of `buildFullHTML`: the article blocks for the ids in
discovery order, wrapped in the fixed page shell with `generatedAt`
interpolated twice. -/
def buildFullHTML (data : AggregateDoc) (bookIds : List Str) : Str :=
  htmlShellA ++ data.generatedAt ++ htmlShellB ++ data.generatedAt ++ htmlShellC
    ++ buildBody data bookIds ++ htmlShellD

/-- One entry of the GitHub directory listing: a `type` field (`dir` or
`file`) and a `name` field. -/
structure DirEntry where
  etype : Str
  name : Str
  deriving DecidableEq

/-- The parsed JSON of the listing endpoint: either an array of entries
or some non-array value (the `Array.isArray` failure case). -/
inductive ListingVal where
  | jarr (es : List DirEntry)
  | jother
  deriving DecidableEq

/-- The remote world as the script observes it: each `fetchJSON` call
either yields a parsed document or `null` (any HTTP, transport or parse
failure).  `authorField` holds the fetched author document's optional
`author` field; the outer `Option` is the fetch itself. -/
structure Network where
  listing : Option ListingVal
  langData : Str → Option Table
  authorField : Str → Option (Option AuthorRef)
  bookContent : Str → Str → Option BookContent

/-- Pure core of `discoverBookIds`: keep the entries whose `type` is
`dir` and project their names, in listing order. -/
def discoverBookIds (entries : List DirEntry) : List Str :=
  (entries.filter (fun e => decide (e.etype = "dir".toList))).map DirEntry.name

/-- The language-table loop of `main`: for each supported language in
order, a successful fetch stores the filtered table, a failed fetch
leaves the language absent. -/
def buildLangTitles (net : Network) : Tables :=
  LANGS.filterMap (fun lang =>
    match net.langData lang with
    | some d => some (lang, filterLangTitles (some d))
    | none => none)

/-- The author part of the per-item loop of `main`: record
`authorData.author` only when the fetch succeeded, the field is present
and its value is truthy. -/
def buildAuthors (net : Network) (ids : List Str) : List (Str × AuthorRef) :=
  ids.filterMap (fun id =>
    match net.authorField id with
    | some (some a) => if authorTruthy a = true then some (id, a) else none
    | _ => none)

/-- The content part of the per-item loop of `main`: every discovered id
gets an entry (initialised to the empty object), holding one binding per
language whose content fetch succeeded. -/
def buildBooks (net : Network) (ids : List Str) : List (Str × BookLangs) :=
  ids.map (fun id =>
    (id, LANGS.filterMap (fun lang =>
      match net.bookContent id lang with
      | some c => some (lang, c)
      | none => none)))

/-- The aggregate document assembled by `main` for a given discovered id
list, with the generation timestamp `now`. -/
def buildDoc (net : Network) (now : Str) (ids : List Str) : AggregateDoc :=
  { generatedAt := now
    langTitles := buildLangTitles net
    bookAuthors := buildAuthors net ids
    books := buildBooks net ids }

/-- A file written by the run: `public/books.json` holds the serialized
aggregate document, `public/books-full.html` the rendered page. -/
inductive WrittenFile where
  | booksJson (doc : AggregateDoc)
  | booksFullHtml (html : Str)
  deriving DecidableEq

/-- Embedding of `main` (with `discoverBookIds`'s fatal check): a listing
failure or non-array listing exits with status 1 before anything is
written; otherwise the aggregate is built and both files are written and
the process exits with status 0. -/
def runMain (net : Network) (now : Str) : Nat × List WrittenFile :=
  match net.listing with
  | some (.jarr entries) =>
    let ids := discoverBookIds entries
    let doc := buildDoc net now ids
    (0, [.booksJson doc, .booksFullHtml (buildFullHTML doc ids)])
  | _ => (1, [])

/-- Last character of a string, if any. -/
def lastC : Str → Option Char
  | [] => none
  | [a] => some a
  | _ :: b :: rest => lastC (b :: rest)

/-- Does the string begin with one of the four entity tails that
`escapeHTML` can produce after an ampersand? -/
def entityStart (rest : Str) : Bool :=
  isPfx ("amp;".toList) rest || isPfx ("lt;".toList) rest ||
  isPfx ("gt;".toList) rest || isPfx ("quot;".toList) rest

/-- Well-escapedness of `escapeHTML` output: no literal `<`, `>` or `"`,
and every `&` starts one of the entity references the function itself
introduces (`&amp;`, `&lt;`, `&gt;`, `&quot;`). -/
def wellEscaped : Str → Bool
  | [] => true
  | c :: rest =>
    if c = '<' ∨ c = '>' ∨ c = '\"' then false
    else if c = '&' then entityStart rest && wellEscaped rest
    else wellEscaped rest

/-- No occurrence of the sentinel immediately followed by a character the
regex `.` matches (a non-line-terminator) — the shape `stripFormattingCodes`
removes. -/
def noStrayPair : Str → Bool
  | [] => true
  | [_] => true
  | c :: d :: rest =>
    if c = sect ∧ lineTerm d = false then false else noStrayPair (d :: rest)

/-- A lookup result JavaScript `||` treats as falsy: absent key or
empty-string value. -/
def falsyLookup (o : Option Str) : Prop :=
  o = none ∨ o = some []

/-- Remove every binding of `key` from a table. -/
def eraseKey : Table → Str → Table
  | [], _ => []
  | (k, v) :: rest, key =>
    if k = key then eraseKey rest key else (k, v) :: eraseKey rest key

/-- Remove every binding of `key` from the table of language `lang`,
leaving the other languages untouched. -/
def eraseLangKey : Tables → Str → Str → Tables
  | [], _, _ => []
  | (l, t) :: rest, lang, key =>
    (if l = lang then (l, eraseKey t key) else (l, t)) :: eraseLangKey rest lang key

/-- Specification-side fused form of `escapeHTML`: what one input
character contributes to the output. -/
def escBlock (c : Char) : Str :=
  if c = '&' then "&amp;".toList
  else if c = '<' then "&lt;".toList
  else if c = '>' then "&gt;".toList
  else if c = '\"' then "&quot;".toList
  else [c]

/-- Specification-side fused form of `escapeHTML`: a single left-to-right
pass over the input. -/
def escFused : Str → Str
  | [] => []
  | c :: rest => escBlock c ++ escFused rest

/-- A concrete network whose listing fetch fails (transport error). -/
def failNet : Network where
  listing := none
  langData := fun _ => none
  authorField := fun _ => none
  bookContent := fun _ _ => none

/-- A concrete directory listing with one subdirectory entry `foo`. -/
def demoEntries : List DirEntry :=
  [{ etype := "dir".toList, name := "foo".toList }]

/-- A concrete network: discovery finds the single item `foo`, only the
`en_us` language table fetch succeeds, and every author and content fetch
fails. -/
def demoNet : Network where
  listing := some (.jarr demoEntries)
  langData := fun l =>
    if l = "en_us".toList
    then some [(("vampire_book.x".toList), ("T".toList))]
    else none
  authorField := fun _ => none
  bookContent := fun _ _ => none

/-- The aggregate document of the end-to-end scenario: one item `foo`
whose only content entry is `en_us` with pages `["Hello, friend.", ""]`
and credit `"- Narrator"`. -/
def demoDoc : AggregateDoc where
  generatedAt := "2024-01-01T00:00:00.000Z".toList
  langTitles := []
  bookAuthors := []
  books := [(("foo".toList),
    [(("en_us".toList),
      { contents := some ["Hello, friend.".toList, ([] : Str)]
        credit := some ("- Narrator".toList) })])]

/-- Tables in which the requested language `fr_fr` carries the title key
for `foo` with an empty-string value while `en_us` carries `EN`. -/
def emptyThenENTables : Tables :=
  [(("fr_fr".toList), [((bookKey ("foo".toList)), ([] : Str))]),
   (("en_us".toList), [((bookKey ("foo".toList)), ("EN".toList))])]

/-- Tables carrying the `en_us` title `Foo Title` for item `foo`. -/
def fooTitleTables : Tables :=
  [(("en_us".toList), [((bookKey ("foo".toList)), ("Foo Title".toList))])]

/-- Author map binding `foo` to the literal empty string. -/
def emptyAuthorRefs : List (Str × AuthorRef) :=
  [(("foo".toList), .astr [])]

/-- Author map binding `bar` to an indirection record with key `k`. -/
def translateAuthorRefs : List (Str × AuthorRef) :=
  [(("bar".toList), .aobj (some ("k".toList)))]

/-- Tables in which the requested language `fr_fr` carries key `k` with
an empty-string value while `en_us` carries `X`. -/
def emptyThenXTables : Tables :=
  [(("fr_fr".toList), [(("k".toList), ([] : Str))]),
   (("en_us".toList), [(("k".toList), ("X".toList))])]

/-- Tables for the truthiness-fallthrough witness of title resolution. -/
def fadeTitleTables : Tables :=
  [(("fr_fr".toList), [((bookKey ("foo".toList)), ([] : Str))]),
   (("en_us".toList), [((bookKey ("foo".toList)), ("Foo".toList))])]

/-- Author map for the truthiness-fallthrough witness of author
resolution. -/
def fadeAuthorRefs : List (Str × AuthorRef) :=
  [(("bar".toList), .aobj (some ("k".toList)))]

/-- Tables for the truthiness-fallthrough witness of author resolution:
`uk_ua` holds `k` with an empty-string value, `en_us` holds `X`. -/
def fadeAuthTables : Tables :=
  [(("uk_ua".toList), [(("k".toList), ([] : Str))]),
   (("en_us".toList), [(("k".toList), ("X".toList))])]

theorem replaceChar_append (c : Char) (rep : Str) (u v : Str) :
    replaceChar c rep (u ++ v) = replaceChar c rep u ++ replaceChar c rep v := by
  induction u with
  | nil => rfl
  | cons a u ih =>
    by_cases h : a = c <;> simp [replaceChar, h, ih]

theorem mem_replaceChar {x c : Char} {rep s : Str}
    (hx : x ∈ replaceChar c rep s) : x ∈ rep ∨ (x ∈ s ∧ x ≠ c) := by
  induction s with
  | nil => simp [replaceChar] at hx
  | cons a s ih =>
    by_cases h : a = c
    · rw [replaceChar, if_pos h] at hx
      rcases List.mem_append.mp hx with h1 | h2
      · exact Or.inl h1
      · rcases ih h2 with h3 | ⟨h4, h5⟩
        · exact Or.inl h3
        · exact Or.inr ⟨List.mem_cons_of_mem a h4, h5⟩
    · rw [replaceChar, if_neg h] at hx
      rcases List.mem_cons.mp hx with h1 | h2
      · subst h1
        exact Or.inr ⟨List.mem_cons_self x s, fun hxc => h hxc⟩
      · rcases ih h2 with h3 | ⟨h4, h5⟩
        · exact Or.inl h3
        · exact Or.inr ⟨List.mem_cons_of_mem a h4, h5⟩

theorem replaceChar_of_not_mem {c : Char} {s : Str} (rep : Str) (h : c ∉ s) :
    replaceChar c rep s = s := by
  induction s with
  | nil => rfl
  | cons a s ih =>
    have ha : a ≠ c := fun hac => h (hac ▸ List.mem_cons_self a s)
    have hs : c ∉ s := fun hc => h (List.mem_cons_of_mem a hc)
    rw [replaceChar, if_neg ha, ih hs]

theorem length_le_replaceChar (c : Char) {rep : Str} (hrep : rep ≠ []) (s : Str) :
    s.length ≤ (replaceChar c rep s).length := by
  induction s with
  | nil => simp [replaceChar]
  | cons a s ih =>
    by_cases h : a = c
    · rw [replaceChar, if_pos h]
      have h1 : 1 ≤ rep.length := by
        cases rep with
        | nil => exact absurd rfl hrep
        | cons r rs => simp
      simp only [List.length_cons, List.length_append]
      omega
    · rw [replaceChar, if_neg h]
      simpa using ih

theorem length_replaceChar_lt {c : Char} {rep s : Str}
    (hrep : 2 ≤ rep.length) (hc : c ∈ s) :
    s.length < (replaceChar c rep s).length := by
  induction s with
  | nil => simp at hc
  | cons a s ih =>
    by_cases h : a = c
    · rw [replaceChar, if_pos h]
      have h1 : s.length ≤ (replaceChar c rep s).length :=
        length_le_replaceChar c (by intro h0; rw [h0] at hrep; simp at hrep) s
      simp only [List.length_append, List.length_cons]
      omega
    · rcases List.mem_cons.mp hc with h1 | h2
      · exact absurd h1.symm h
      · rw [replaceChar, if_neg h]
        simpa using ih h2

theorem replaceChar_single_length (c r : Char) (s : Str) :
    (replaceChar c [r] s).length = s.length := by
  induction s with
  | nil => rfl
  | cons a s ih =>
    by_cases h : a = c <;> simp [replaceChar, h, ih]

theorem escapeHTML_eq_fused (s : Str) : escapeHTML s = escFused s := by
  induction s with
  | nil => rfl
  | cons a s ih =>
    have step : ∀ (c : Char) (rep : Str) (t : Str),
        replaceChar c rep (a :: t) =
          (if a = c then rep else [a]) ++ replaceChar c rep t := by
      intro c rep t
      by_cases h : a = c <;> simp [replaceChar, h]
    rw [escapeHTML, step, replaceChar_append, replaceChar_append, replaceChar_append]
    rw [escFused]
    have core : replaceChar '\"' ("&quot;".toList)
        (replaceChar '>' ("&gt;".toList)
          (replaceChar '<' ("&lt;".toList) (if a = '&' then "&amp;".toList else [a]))) =
        escBlock a := by
      by_cases h1 : a = '&'
      · subst h1; rfl
      · rw [if_neg h1]
        by_cases h2 : a = '<'
        · subst h2; rfl
        · by_cases h3 : a = '>'
          · subst h3; rfl
          · by_cases h4 : a = '\"'
            · subst h4; rfl
            · simp [escBlock, replaceChar, h1, h2, h3, h4]
    rw [core]
    exact congrArg (fun z => escBlock a ++ z) ih

theorem wellEscaped_amp (t : Str) :
    wellEscaped ('&' :: 'a' :: 'm' :: 'p' :: ';' :: t) = wellEscaped t := rfl

theorem wellEscaped_lt (t : Str) :
    wellEscaped ('&' :: 'l' :: 't' :: ';' :: t) = wellEscaped t := rfl

theorem wellEscaped_gt (t : Str) :
    wellEscaped ('&' :: 'g' :: 't' :: ';' :: t) = wellEscaped t := rfl

theorem wellEscaped_quot (t : Str) :
    wellEscaped ('&' :: 'q' :: 'u' :: 'o' :: 't' :: ';' :: t) = wellEscaped t := rfl

theorem wellEscaped_cons_plain {a : Char} (t : Str)
    (h1 : a ≠ '<') (h2 : a ≠ '>') (h3 : a ≠ '\"') (h4 : a ≠ '&') :
    wellEscaped (a :: t) = wellEscaped t := by
  rw [wellEscaped]
  rw [if_neg (by tauto), if_neg h4]

theorem wellEscaped_escFused (s : Str) : wellEscaped (escFused s) = true := by
  induction s with
  | nil => rfl
  | cons a s ih =>
    rw [escFused]
    by_cases h1 : a = '&'
    · subst h1
      rw [show escBlock '&' = "&amp;".toList from rfl]
      simpa [wellEscaped_amp] using ih
    · by_cases h2 : a = '<'
      · subst h2
        rw [show escBlock '<' = "&lt;".toList from rfl]
        simpa [wellEscaped_lt] using ih
      · by_cases h3 : a = '>'
        · subst h3
          rw [show escBlock '>' = "&gt;".toList from rfl]
          simpa [wellEscaped_gt] using ih
        · by_cases h4 : a = '\"'
          · subst h4
            rw [show escBlock '\"' = "&quot;".toList from rfl]
            simpa [wellEscaped_quot] using ih
          · rw [escBlock, if_neg h1, if_neg h2, if_neg h3, if_neg h4]
            rw [List.singleton_append, wellEscaped_cons_plain (escFused s) h2 h3 h4 h1]
            exact ih

theorem amp_mem_escFused {c : Char} {s : Str} (hc : c ∈ s)
    (hsp : c = '&' ∨ c = '<' ∨ c = '>' ∨ c = '\"') : '&' ∈ escFused s := by
  induction s with
  | nil => simp at hc
  | cons a s ih =>
    rw [escFused]
    rcases List.mem_cons.mp hc with h1 | h2
    · subst h1
      refine List.mem_append.mpr (Or.inl ?_)
      rcases hsp with h | h | h | h <;> subst h <;> decide
    · exact List.mem_append.mpr (Or.inr (ih h2))

theorem stripFormattingCodes_cons_ne {c : Char} (t : Str) (h : c ≠ sect) :
    stripFormattingCodes (c :: t) = c :: stripFormattingCodes t := by
  cases t with
  | nil => rfl
  | cons b r => simp [stripFormattingCodes, h]

theorem lineTerm_ne_sect {d : Char} (h : lineTerm d = true) : d ≠ sect := by
  intro hd
  subst hd
  simp [lineTerm, sect] at h

theorem noStrayPair_cons_ne {c : Char} (xs : Str) (h : c ≠ sect) :
    noStrayPair (c :: xs) = noStrayPair xs := by
  cases xs with
  | nil => rfl
  | cons b r =>
    rw [noStrayPair, if_neg]
    intro hcon
    exact h hcon.1

theorem noStrayPair_stripFormattingCodes : ∀ s : Str,
    noStrayPair (stripFormattingCodes s) = true
  | [] => rfl
  | [c] => rfl
  | c :: d :: rest => by
    by_cases hc : c = sect
    · subst hc
      by_cases hd : lineTerm d = true
      · rw [stripFormattingCodes, if_pos rfl, if_pos hd]
        have hds : d ≠ sect := lineTerm_ne_sect hd
        have ihd := noStrayPair_stripFormattingCodes (d :: rest)
        rw [stripFormattingCodes_cons_ne rest hds] at ihd ⊢
        rw [noStrayPair, if_neg (by simp [hd])]
        exact ihd
      · rw [stripFormattingCodes, if_pos rfl, if_neg hd]
        exact noStrayPair_stripFormattingCodes rest
    · rw [stripFormattingCodes_cons_ne (d :: rest) hc]
      rw [noStrayPair_cons_ne _ hc]
      exact noStrayPair_stripFormattingCodes (d :: rest)

theorem stripFormattingCodes_of_not_mem : ∀ s : Str, sect ∉ s →
    stripFormattingCodes s = s
  | [], _ => rfl
  | c :: t, h => by
    have hc : c ≠ sect := fun hc => h (hc ▸ List.mem_cons_self c t)
    have ht : sect ∉ t := fun hm => h (List.mem_cons_of_mem c hm)
    rw [stripFormattingCodes_cons_ne t hc, stripFormattingCodes_of_not_mem t ht]

theorem stripFormattingCodes_pair : ∀ (u : Str) (d : Char) (v : Str),
    sect ∉ u → lineTerm d = false →
    stripFormattingCodes (u ++ sect :: d :: v) = u ++ stripFormattingCodes v
  | [], d, v, _, hd => by
    rw [List.nil_append, stripFormattingCodes, if_pos rfl, if_neg (by simp [hd])]
    rfl
  | a :: u, d, v, hu, hd => by
    have ha : a ≠ sect := fun hc => hu (hc ▸ List.mem_cons_self a u)
    have hu' : sect ∉ u := fun hm => hu (List.mem_cons_of_mem a hm)
    rw [List.cons_append, stripFormattingCodes_cons_ne _ ha,
      stripFormattingCodes_pair u d v hu' hd, List.cons_append]

theorem lastC_cons_some {xs : Str} {z : Char} (a : Char) (h : lastC xs = some z) :
    lastC (a :: xs) = some z := by
  cases xs with
  | nil => simp [lastC] at h
  | cons b r => rw [show lastC (a :: b :: r) = lastC (b :: r) from rfl, h]

theorem lastC_stripFormattingCodes_tail : ∀ (u : Str) (c : Char), c ≠ sect →
    lastC (stripFormattingCodes (u ++ [c, sect])) = some sect
  | [], c, hc => by
    rw [List.nil_append, stripFormattingCodes_cons_ne [sect] hc]
    rfl
  | [a], c, hc => by
    by_cases ha : a = sect
    · subst ha
      by_cases hlc : lineTerm c = true
      · rw [List.cons_append, List.nil_append, stripFormattingCodes,
          if_pos rfl, if_pos hlc, stripFormattingCodes_cons_ne [sect] hc]
        rfl
      · rw [List.cons_append, List.nil_append, stripFormattingCodes,
          if_pos rfl, if_neg hlc]
        rfl
    · rw [List.cons_append, List.nil_append,
        stripFormattingCodes_cons_ne (c :: [sect]) ha,
        stripFormattingCodes_cons_ne [sect] hc]
      rfl
  | a :: b :: u, c, hc => by
    by_cases ha : a = sect
    · subst ha
      by_cases hlb : lineTerm b = true
      · rw [List.cons_append, List.cons_append, stripFormattingCodes, if_pos rfl,
          if_pos hlb, ← List.cons_append]
        exact lastC_cons_some sect (lastC_stripFormattingCodes_tail (b :: u) c hc)
      · rw [List.cons_append, List.cons_append, stripFormattingCodes, if_pos rfl,
          if_neg hlb]
        exact lastC_stripFormattingCodes_tail u c hc
    · rw [List.cons_append, stripFormattingCodes_cons_ne _ ha]
      exact lastC_cons_some a (lastC_stripFormattingCodes_tail (b :: u) c hc)

theorem jsOrS_some_ne {s : Str} (y : Str) (h : s ≠ []) : jsOrS (some s) y = s := by
  simp [jsOrS, h]

theorem jsOrS_falsy {o : Option Str} (y : Str) (h : falsyLookup o) : jsOrS o y = y := by
  rcases h with h | h <;> subst h <;> simp [jsOrS]

theorem getBookTitle_eq (bookId : Str) (T : Tables) (lang : Str) :
    getBookTitle bookId T lang =
      jsOrS (olookup2 T lang (bookKey bookId))
        (jsOrS (olookup2 T ("en_us".toList) (bookKey bookId))
          (replaceChar '_' (" ".toList) bookId)) := rfl

theorem resolveAuthor_none {bookId : Str} {A : List (Str × AuthorRef)}
    (T : Tables) (lang : Str) (ha : olookup A bookId = none) :
    resolveAuthor bookId A T lang = "Unknown".toList := by
  rw [resolveAuthor, ha]

theorem resolveAuthor_astr {bookId : Str} {A : List (Str × AuthorRef)} {s : Str}
    (T : Tables) (lang : Str) (ha : olookup A bookId = some (.astr s)) :
    resolveAuthor bookId A T lang = if s = [] then "Unknown".toList else s := by
  rw [resolveAuthor, ha]

theorem resolveAuthor_aobj_none {bookId : Str} {A : List (Str × AuthorRef)}
    (T : Tables) (lang : Str) (ha : olookup A bookId = some (.aobj none)) :
    resolveAuthor bookId A T lang = "Unknown".toList := by
  rw [resolveAuthor, ha]

theorem resolveAuthor_aobj_some {bookId : Str} {A : List (Str × AuthorRef)} {k : Str}
    (T : Tables) (lang : Str) (ha : olookup A bookId = some (.aobj (some k))) :
    resolveAuthor bookId A T lang =
      if k = [] then "Unknown".toList
      else jsOrS (olookup2 T lang k)
        (jsOrS (olookup2 T ("en_us".toList) k) ("Unknown".toList)) := by
  rw [resolveAuthor, ha]

theorem olookup_eraseKey_self (t : Table) (key : Str) :
    olookup (eraseKey t key) key = none := by
  induction t with
  | nil => rfl
  | cons p rest ih =>
    obtain ⟨k, v⟩ := p
    by_cases h : k = key
    · rw [eraseKey, if_pos h]
      exact ih
    · rw [eraseKey, if_neg h, olookup, if_neg h]
      exact ih

theorem olookup_eraseLangKey (T : Tables) (lang key l : Str) :
    olookup (eraseLangKey T lang key) l =
      Option.map (fun t => if l = lang then eraseKey t key else t) (olookup T l) := by
  induction T with
  | nil => rfl
  | cons p rest ih =>
    obtain ⟨l', t'⟩ := p
    by_cases hl : l' = lang
    · subst hl
      rw [eraseLangKey, if_pos rfl]
      by_cases he : l' = l
      · subst he
        rw [olookup, if_pos rfl, olookup, if_pos rfl]
        simp
      · rw [olookup, if_neg he, olookup, if_neg he, ih]
    · rw [eraseLangKey, if_neg hl]
      by_cases he : l' = l
      · subst he
        rw [olookup, if_pos rfl, olookup, if_pos rfl]
        simp [hl]
      · rw [olookup, if_neg he, olookup, if_neg he, ih]

theorem olookup2_eraseLangKey_self (T : Tables) (lang key : Str) :
    olookup2 (eraseLangKey T lang key) lang key = none := by
  rw [olookup2, olookup_eraseLangKey]
  cases ht : olookup T lang with
  | none => rfl
  | some t => simp [olookup_eraseKey_self]

theorem olookup2_eraseLangKey_other {T : Tables} {lang l : Str} (key k : Str)
    (h : l ≠ lang) :
    olookup2 (eraseLangKey T lang key) l k = olookup2 T l k := by
  rw [olookup2, olookup2, olookup_eraseLangKey]
  cases ht : olookup T l with
  | none => rfl
  | some t => simp [h]

theorem buildAuthors_keys (net : Network) (ids : List Str) :
    ∀ p ∈ buildAuthors net ids, p.1 ∈ ids := by
  intro p hp
  rw [buildAuthors] at hp
  obtain ⟨a, ha, hfa⟩ := List.mem_filterMap.mp hp
  cases hnet : net.authorField a with
  | none =>
    simp only [hnet] at hfa
    exact Option.noConfusion hfa
  | some o =>
    cases o with
    | none =>
      simp only [hnet] at hfa
      exact Option.noConfusion hfa
    | some ar =>
      simp only [hnet] at hfa
      by_cases ht : authorTruthy ar = true
      · rw [if_pos ht] at hfa
        obtain rfl := Option.some_injective _ hfa
        exact ha
      · rw [if_neg ht] at hfa
        exact absurd hfa (by simp)

theorem buildBooks_keys (net : Network) (ids : List Str) :
    (buildBooks net ids).map Prod.fst = ids := by
  induction ids with
  | nil => rfl
  | cons a ids ih =>
    rw [buildBooks, List.map_cons, List.map_cons] at *
    rw [ih]

theorem buildBooks_empty (net : Network) (ids : List Str) (id : Str)
    (hid : id ∈ ids) (hno : ∀ lang ∈ LANGS, net.bookContent id lang = none) :
    olookup (buildBooks net ids) id = some [] := by
  induction ids with
  | nil => simp at hid
  | cons a ids ih =>
    by_cases hai : a = id
    · subst hai
      have h1 := hno ("en_us".toList) (by simp [LANGS])
      have h2 := hno ("ru_ru".toList) (by simp [LANGS])
      have h3 := hno ("uk_ua".toList) (by simp [LANGS])
      rw [buildBooks, List.map_cons, olookup, if_pos rfl]
      simp only [LANGS, List.filterMap_cons, List.filterMap_nil, h1, h2, h3]
    · rw [buildBooks, List.map_cons, olookup, if_neg hai]
      rcases List.mem_cons.mp hid with h | h
      · exact absurd h.symm hai
      · exact ih h

theorem buildLangTitles_keys (net : Network) :
    ∀ l ∈ (buildLangTitles net).map Prod.fst, l ∈ LANGS := by
  intro l hl
  obtain ⟨p, hp, hpl⟩ := List.mem_map.mp hl
  rw [buildLangTitles] at hp
  obtain ⟨lang, hlang, hf⟩ := List.mem_filterMap.mp hp
  cases hnet : net.langData lang with
  | none =>
    simp only [hnet] at hf
    exact Option.noConfusion hf
  | some d =>
    simp only [hnet] at hf
    obtain rfl := Option.some_injective _ hf
    rw [← hpl]
    exact hlang

theorem runMain_arr (net : Network) (now : Str) (es : List DirEntry)
    (h : net.listing = some (.jarr es)) :
    runMain net now =
      (0, [.booksJson (buildDoc net now (discoverBookIds es)),
           .booksFullHtml (buildFullHTML (buildDoc net now (discoverBookIds es))
             (discoverBookIds es))]) := by
  unfold runMain
  rw [h]

theorem runMain_fail (net : Network) (now : Str)
    (h : net.listing = none ∨ net.listing = some .jother) :
    runMain net now = (1, []) := by
  unfold runMain
  rcases h with h | h <;> rw [h]

theorem jsOrS_ne_nil {y : Str} (o : Option Str) (hy : y ≠ []) : jsOrS o y ≠ [] := by
  cases o with
  | none => simpa [jsOrS] using hy
  | some s =>
    by_cases hs : s = []
    · subst hs
      simp only [jsOrS, if_pos rfl]
      exact hy
    · simp [jsOrS, hs]

theorem wellEscaped_no_specials : ∀ t : Str, wellEscaped t = true →
    '<' ∉ t ∧ '>' ∉ t ∧ '\"' ∉ t
  | [], _ => by simp
  | c :: rest, h => by
    rw [wellEscaped] at h
    by_cases h1 : c = '<' ∨ c = '>' ∨ c = '\"'
    · rw [if_pos h1] at h
      exact absurd h (by simp)
    · rw [if_neg h1] at h
      have hrest : wellEscaped rest = true := by
        by_cases h2 : c = '&'
        · rw [if_pos h2] at h
          exact ((Bool.and_eq_true _ _).mp h).2
        · rwa [if_neg h2] at h
      have ih := wellEscaped_no_specials rest hrest
      push_neg at h1
      refine ⟨?_, ?_, ?_⟩ <;> intro hm
      · rcases List.mem_cons.mp hm with he | hm2
        · exact h1.1 he.symm
        · exact ih.1 hm2
      · rcases List.mem_cons.mp hm with he | hm2
        · exact h1.2.1 he.symm
        · exact ih.2.1 hm2
      · rcases List.mem_cons.mp hm with he | hm2
        · exact h1.2.2 he.symm
        · exact ih.2.2 hm2

theorem escapeHTML_of_no_specials {t : Str}
    (h1 : '<' ∉ t) (h2 : '>' ∉ t) (h3 : '\"' ∉ t) :
    escapeHTML t = replaceChar '&' ("&amp;".toList) t := by
  have a1 : '<' ∉ replaceChar '&' ("&amp;".toList) t := by
    intro hm
    rcases mem_replaceChar hm with hr | ⟨hmem, _⟩
    · revert hr
      decide
    · exact h1 hmem
  have a2 : '>' ∉ replaceChar '&' ("&amp;".toList) t := by
    intro hm
    rcases mem_replaceChar hm with hr | ⟨hmem, _⟩
    · revert hr
      decide
    · exact h2 hmem
  have a3 : '\"' ∉ replaceChar '&' ("&amp;".toList) t := by
    intro hm
    rcases mem_replaceChar hm with hr | ⟨hmem, _⟩
    · revert hr
      decide
    · exact h3 hmem
  rw [escapeHTML, replaceChar_of_not_mem _ a1, replaceChar_of_not_mem _ a2,
    replaceChar_of_not_mem _ a3]

theorem escapeHTML_no_specials (s : Str) :
    '<' ∉ escapeHTML s ∧ '>' ∉ escapeHTML s ∧ '\"' ∉ escapeHTML s :=
  wellEscaped_no_specials (escapeHTML s)
    (by rw [escapeHTML_eq_fused]; exact wellEscaped_escFused s)

theorem escapeHTML_twice (s : Str) :
    escapeHTML (escapeHTML s) = replaceChar '&' ("&amp;".toList) (escapeHTML s) := by
  obtain ⟨h1, h2, h3⟩ := escapeHTML_no_specials s
  exact escapeHTML_of_no_specials h1 h2 h3

/-- Claim C4 counterexample: the string consisting of the sentinel
followed by a newline contains the sentinel followed by a character, yet
`stripFormattingCodes` returns it unchanged (the regex `.` does not match
a line terminator), so the output still contains both the sentinel and
the character that followed it. -/
theorem claim4_counterexample :
    stripFormattingCodes [sect, '\n'] = [sect, '\n']
    ∧ sect ∈ stripFormattingCodes [sect, '\n'] := by
  constructor
  · decide
  · decide

/-- Claim C4 (amended): `stripFormattingCodes` removes every sentinel
together with the following character when that character is not an
ECMAScript line terminator, and its output never contains a sentinel
followed by a non-line-terminator; strings without the sentinel are
returned unchanged; non-string input is returned unchanged. -/
theorem claim4_theorem :
    (∀ s : Str, noStrayPair (stripFormattingCodes s) = true)
  ∧ (∀ (u : Str) (d : Char) (v : Str), sect ∉ u → lineTerm d = false →
      stripFormattingCodes (u ++ sect :: d :: v) = u ++ stripFormattingCodes v)
  ∧ (∀ s : Str, sect ∉ s → stripFormattingCodes s = s)
  ∧ (∀ v : JSValue, isStr v = false → stripFormattingCodesVal v = v) := by
  refine ⟨noStrayPair_stripFormattingCodes, stripFormattingCodes_pair,
    stripFormattingCodes_of_not_mem, ?_⟩
  intro v hv
  cases v with
  | vstr s => simp [isStr] at hv
  | vnum n => rfl
  | vbool b => rfl
  | vnull => rfl
  | vundef => rfl

/-- Claim C4 witness: the amended theorem instantiated at concrete
inputs: `"a§xb"` strips to `"ab"`, `"hello"` is unchanged, and the
number `3` passes through. -/
theorem claim4_witness :
    stripFormattingCodes ("a".toList ++ sect :: 'x' :: "b".toList)
      = "a".toList ++ stripFormattingCodes ("b".toList)
    ∧ stripFormattingCodes ("hello".toList) = "hello".toList
    ∧ stripFormattingCodesVal (.vnum 3) = .vnum 3 :=
  ⟨claim4_theorem.2.1 ("a".toList) 'x' ("b".toList) (by decide) (by decide),
   claim4_theorem.2.2.1 ("hello".toList) (by decide),
   claim4_theorem.2.2.2 (.vnum 3) rfl⟩

/-- Claim C5: for every string the output of `escapeHTML` contains no
literal `<`, `>` or `"`, and every `&` in it starts one of the entity
references the function itself introduces; every non-string input yields
the empty string. -/
theorem claim5_theorem :
    (∀ s : Str, wellEscaped (escapeHTML s) = true)
  ∧ (∀ v : JSValue, isStr v = false → escapeHTMLVal v = []) := by
  constructor
  · intro s
    rw [escapeHTML_eq_fused]
    exact wellEscaped_escFused s
  · intro v hv
    cases v with
    | vstr s => simp [isStr] at hv
    | vnum n => rfl
    | vbool b => rfl
    | vnull => rfl
    | vundef => rfl

/-- Claim C5 witness: the theorem instantiated at `null`, which escapes
to the empty string. -/
theorem claim5_witness : escapeHTMLVal .vnull = [] :=
  claim5_theorem.2 .vnull rfl

/-- Claim C6: `escapeHTML` is not idempotent: a second application
changes exactly the ampersands of the first output (each `&`, including
those inside entity references, becomes `&amp;`, nothing else changes),
and on every string containing `&`, `<`, `>` or `"` the second
application differs from the first. -/
theorem claim6_theorem :
    (∀ s : Str, escapeHTML (escapeHTML s) =
      replaceChar '&' ("&amp;".toList) (escapeHTML s))
  ∧ (∀ s : Str, ('&' ∈ s ∨ '<' ∈ s ∨ '>' ∈ s ∨ '\"' ∈ s) →
      escapeHTML (escapeHTML s) ≠ escapeHTML s) := by
  refine ⟨escapeHTML_twice, ?_⟩
  intro s h heq
  have hamp : '&' ∈ escapeHTML s := by
    rw [escapeHTML_eq_fused]
    rcases h with h | h | h | h
    · exact amp_mem_escFused h (Or.inl rfl)
    · exact amp_mem_escFused h (Or.inr (Or.inl rfl))
    · exact amp_mem_escFused h (Or.inr (Or.inr (Or.inl rfl)))
    · exact amp_mem_escFused h (Or.inr (Or.inr (Or.inr rfl)))
  have hlt : (escapeHTML s).length <
      (replaceChar '&' ("&amp;".toList) (escapeHTML s)).length :=
    length_replaceChar_lt (by decide) hamp
  rw [escapeHTML_twice s] at heq
  rw [heq] at hlt
  exact Nat.lt_irrefl _ hlt

/-- Claim C6 witness: the theorem instantiated at `"&"`: escaping twice
gives `&amp;amp;`, which differs from `&amp;`. -/
theorem claim6_witness :
    escapeHTML (escapeHTML ("&".toList)) ≠ escapeHTML ("&".toList) :=
  claim6_theorem.2 ("&".toList) (Or.inl (by decide))

/-- Claim C7: when the listing fetch fails or yields a non-array value,
the run exits with status 1 and writes no file. -/
theorem claim7_theorem : ∀ (net : Network) (now : Str),
    net.listing = none ∨ net.listing = some .jother →
    runMain net now = (1, []) :=
  fun net now h => runMain_fail net now h

/-- Claim C7 witness: the theorem instantiated at a concrete network
whose listing fetch fails. -/
theorem claim7_witness : runMain failNet [] = (1, []) :=
  claim7_theorem failNet [] (Or.inl rfl)

/-- Claim C10 counterexample: `"§§"` ends in the sentinel, but the
trailing sentinel is consumed as the companion character of the
preceding sentinel and the output is empty, not ending in the
sentinel. -/
theorem claim10_counterexample :
    lastC [sect, sect] = some sect ∧ stripFormattingCodes [sect, sect] = [] := by
  constructor
  · decide
  · decide

/-- Claim C10 (amended): a trailing sentinel survives
`stripFormattingCodes` whenever it is not consumed as the companion of a
preceding sentinel: a one-character sentinel string is unchanged, and for
every string ending in a non-sentinel character followed by the sentinel
the output still ends in the sentinel. -/
theorem claim10_theorem :
    (∀ (u : Str) (c : Char), c ≠ sect →
      lastC (stripFormattingCodes (u ++ [c, sect])) = some sect)
  ∧ stripFormattingCodes [sect] = [sect] :=
  ⟨lastC_stripFormattingCodes_tail, rfl⟩

/-- Claim C10 witness: the amended theorem instantiated at `"ab"`,
`'x'`: `"abx§"` still ends in the sentinel after stripping. -/
theorem claim10_witness :
    lastC (stripFormattingCodes ("ab".toList ++ ['x', sect])) = some sect :=
  claim10_theorem.1 ("ab".toList) 'x' (by decide)

/-- Claim C2 counterexample: with the requested language table carrying
the title key with an empty-string value, `getBookTitle` does not return
that present value but falls through to the `en_us` value `EN`; and with
the empty item id it returns the empty string, refuting the claimed
presence-based lookup and the claimed non-emptiness. -/
theorem claim2_counterexample :
    (olookup2 emptyThenENTables ("fr_fr".toList) (bookKey ("foo".toList)) = some []
     ∧ getBookTitle ("foo".toList) emptyThenENTables ("fr_fr".toList) = "EN".toList)
    ∧ getBookTitle ([] : Str) [] ("en_us".toList) = [] := by
  refine ⟨⟨?_, ?_⟩, ?_⟩ <;> decide

/-- Claim C2 (amended): `getBookTitle` returns the requested language's
value at `vampire_book.vampirism.<itemId>` when it is present and
non-empty; otherwise the `en_us` value when present and non-empty;
otherwise the item id with underscores replaced by spaces.  The result
is non-empty whenever the item id is non-empty, and the function is
total. -/
theorem claim2_theorem : ∀ (bookId : Str) (T : Tables) (lang : Str),
    (∀ v, olookup2 T lang (bookKey bookId) = some v → v ≠ [] →
      getBookTitle bookId T lang = v)
  ∧ (falsyLookup (olookup2 T lang (bookKey bookId)) →
      (∀ w, olookup2 T ("en_us".toList) (bookKey bookId) = some w → w ≠ [] →
        getBookTitle bookId T lang = w)
      ∧ (falsyLookup (olookup2 T ("en_us".toList) (bookKey bookId)) →
          getBookTitle bookId T lang = replaceChar '_' (" ".toList) bookId))
  ∧ (bookId ≠ [] → getBookTitle bookId T lang ≠ []) := by
  intro bookId T lang
  refine ⟨?_, ?_, ?_⟩
  · intro v hv hvne
    rw [getBookTitle_eq, hv, jsOrS_some_ne _ hvne]
  · intro hmiss
    refine ⟨?_, ?_⟩
    · intro w hw hwne
      rw [getBookTitle_eq, jsOrS_falsy _ hmiss, hw, jsOrS_some_ne _ hwne]
    · intro hmiss2
      rw [getBookTitle_eq, jsOrS_falsy _ hmiss, jsOrS_falsy _ hmiss2]
  · intro hne
    rw [getBookTitle_eq]
    have hfb : replaceChar '_' (" ".toList) bookId ≠ [] := by
      intro h0
      have hlen : bookId.length = 0 := by
        have hl := replaceChar_single_length '_' ' ' bookId
        rw [show (" ".toList : Str) = [' '] from rfl] at h0
        rw [h0] at hl
        simpa using hl.symm
      exact hne (List.length_eq_zero.mp hlen)
    exact jsOrS_ne_nil _ (jsOrS_ne_nil _ hfb)

/-- Claim C2 witness: the amended theorem instantiated concretely: the
present non-empty `en_us` title is returned, and the underscore fallback
is non-empty. -/
theorem claim2_witness :
    getBookTitle ("foo".toList) fooTitleTables ("en_us".toList) = "Foo Title".toList
    ∧ getBookTitle ("bar_baz".toList) [] ("en_us".toList) ≠ [] :=
  ⟨(claim2_theorem ("foo".toList) fooTitleTables ("en_us".toList)).1
      ("Foo Title".toList) (by decide) (by decide),
   (claim2_theorem ("bar_baz".toList) [] ("en_us".toList)).2.2 (by decide)⟩

/-- Claim C3 counterexample: a literal empty-string author reference is
not returned unchanged but resolves to `Unknown` (the `!author`
truthiness check precedes the string type check); and an indirection
whose key is present with an empty-string value in the requested
language's table does not yield that value but falls through to the
`en_us` value `X`. -/
theorem claim3_counterexample :
    (olookup emptyAuthorRefs ("foo".toList) = some (.astr [])
     ∧ resolveAuthor ("foo".toList) emptyAuthorRefs [] ("en_us".toList)
        = "Unknown".toList)
    ∧ (olookup2 emptyThenXTables ("fr_fr".toList) ("k".toList) = some []
       ∧ resolveAuthor ("bar".toList) translateAuthorRefs emptyThenXTables
           ("fr_fr".toList) = "X".toList) := by
  refine ⟨⟨?_, ?_⟩, ?_, ?_⟩ <;> decide

/-- Claim C3 (amended): `resolveAuthor` yields `Unknown` for an absent
reference and for a literal empty string; a non-empty literal string is
returned unchanged; an indirection with an absent or empty `translate`
key yields `Unknown`; an indirection with a non-empty key resolves to
the requested language's value when present and non-empty, else the
`en_us` value when present and non-empty, else `Unknown`. -/
theorem claim3_theorem : ∀ (bookId : Str) (A : List (Str × AuthorRef))
    (T : Tables) (lang : Str),
    (olookup A bookId = none → resolveAuthor bookId A T lang = "Unknown".toList)
  ∧ (olookup A bookId = some (.astr []) →
      resolveAuthor bookId A T lang = "Unknown".toList)
  ∧ (∀ s, olookup A bookId = some (.astr s) → s ≠ [] →
      resolveAuthor bookId A T lang = s)
  ∧ (olookup A bookId = some (.aobj none) →
      resolveAuthor bookId A T lang = "Unknown".toList)
  ∧ (olookup A bookId = some (.aobj (some [])) →
      resolveAuthor bookId A T lang = "Unknown".toList)
  ∧ (∀ k, olookup A bookId = some (.aobj (some k)) → k ≠ [] →
      (∀ v, olookup2 T lang k = some v → v ≠ [] →
        resolveAuthor bookId A T lang = v)
      ∧ (falsyLookup (olookup2 T lang k) →
          (∀ w, olookup2 T ("en_us".toList) k = some w → w ≠ [] →
            resolveAuthor bookId A T lang = w)
          ∧ (falsyLookup (olookup2 T ("en_us".toList) k) →
              resolveAuthor bookId A T lang = "Unknown".toList))) := by
  intro bookId A T lang
  refine ⟨?_, ?_, ?_, ?_, ?_, ?_⟩
  · exact fun ha => resolveAuthor_none T lang ha
  · intro ha
    rw [resolveAuthor_astr T lang ha, if_pos rfl]
  · intro s ha hs
    rw [resolveAuthor_astr T lang ha, if_neg hs]
  · exact fun ha => resolveAuthor_aobj_none T lang ha
  · intro ha
    rw [resolveAuthor_aobj_some T lang ha, if_pos rfl]
  · intro k ha hk
    rw [resolveAuthor_aobj_some T lang ha, if_neg hk]
    refine ⟨?_, ?_⟩
    · intro v hv hvne
      rw [hv, jsOrS_some_ne _ hvne]
    · intro hmiss
      refine ⟨?_, ?_⟩
      · intro w hw hwne
        rw [jsOrS_falsy _ hmiss, hw, jsOrS_some_ne _ hwne]
      · intro hmiss2
        rw [jsOrS_falsy _ hmiss, jsOrS_falsy _ hmiss2]

/-- Claim C3 witness: the amended theorem instantiated concretely: an
id with no reference yields `Unknown`, and a non-empty literal reference
is returned verbatim. -/
theorem claim3_witness :
    resolveAuthor ("x".toList) [] [] ("en_us".toList) = "Unknown".toList
    ∧ resolveAuthor ("foo".toList) [(("foo".toList), .astr ("Ann".toList))] []
        ("en_us".toList) = "Ann".toList :=
  ⟨(claim3_theorem ("x".toList) [] [] ("en_us".toList)).1 rfl,
   (claim3_theorem ("foo".toList) [(("foo".toList), .astr ("Ann".toList))] []
       ("en_us".toList)).2.2.1 ("Ann".toList) (by decide) (by decide)⟩

/-- Claim C9: in both `getBookTitle` and `resolveAuthor`, finding an
empty-string value in the requested language's table behaves exactly as
if the key were absent from that table: the result is unchanged when the
binding is erased, so the fallback chain is driven by truthiness of the
looked-up value, not by key presence. -/
theorem claim9_theorem : ∀ (bookId : Str) (A : List (Str × AuthorRef))
    (T : Tables) (lang : Str),
    (olookup2 T lang (bookKey bookId) = some [] →
      getBookTitle bookId T lang =
        getBookTitle bookId (eraseLangKey T lang (bookKey bookId)) lang)
  ∧ (∀ k, olookup A bookId = some (.aobj (some k)) → k ≠ [] →
      olookup2 T lang k = some [] →
      resolveAuthor bookId A T lang =
        resolveAuthor bookId A (eraseLangKey T lang k) lang) := by
  intro bookId A T lang
  constructor
  · intro h
    rw [getBookTitle_eq, getBookTitle_eq, h, olookup2_eraseLangKey_self]
    rw [jsOrS_falsy _ (Or.inr rfl), jsOrS_falsy _ (Or.inl rfl)]
    by_cases hen : ("en_us".toList : Str) = lang
    · rw [hen, h, olookup2_eraseLangKey_self]
      rw [jsOrS_falsy _ (Or.inr rfl), jsOrS_falsy _ (Or.inl rfl)]
    · rw [olookup2_eraseLangKey_other (bookKey bookId) (bookKey bookId) hen]
  · intro k ha hk h
    rw [resolveAuthor_aobj_some T lang ha,
      resolveAuthor_aobj_some (eraseLangKey T lang k) lang ha,
      if_neg hk, if_neg hk, h, olookup2_eraseLangKey_self]
    rw [jsOrS_falsy _ (Or.inr rfl), jsOrS_falsy _ (Or.inl rfl)]
    by_cases hen : ("en_us".toList : Str) = lang
    · rw [hen, h, olookup2_eraseLangKey_self]
      rw [jsOrS_falsy _ (Or.inr rfl), jsOrS_falsy _ (Or.inl rfl)]
    · rw [olookup2_eraseLangKey_other k k hen]

/-- Claim C9 witness: the theorem instantiated concretely: erasing the
empty-valued binding changes neither the resolved title nor the resolved
author. -/
theorem claim9_witness :
    getBookTitle ("foo".toList) fadeTitleTables ("fr_fr".toList)
      = getBookTitle ("foo".toList)
          (eraseLangKey fadeTitleTables ("fr_fr".toList) (bookKey ("foo".toList)))
          ("fr_fr".toList)
    ∧ resolveAuthor ("bar".toList) fadeAuthorRefs fadeAuthTables ("uk_ua".toList)
      = resolveAuthor ("bar".toList) fadeAuthorRefs
          (eraseLangKey fadeAuthTables ("uk_ua".toList) ("k".toList))
          ("uk_ua".toList) :=
  ⟨(claim9_theorem ("foo".toList) [] fadeTitleTables ("fr_fr".toList)).1 (by decide),
   (claim9_theorem ("bar".toList) fadeAuthorRefs fadeAuthTables ("uk_ua".toList)).2
     ("k".toList) (by decide) (by decide) (by decide)⟩

/-- Claim C1 counterexample: in the end-to-end scenario the rendered
document does not contain the claimed credit footer text `— Narrator`;
the emitted footer is `— - Narrator` (the code prefixes an em dash and a
space to the escaped credit, which itself begins with `- `). -/
theorem claim1_counterexample :
    containsSub ("— Narrator".toList) (buildFullHTML demoDoc ["foo".toList])
        = false
    ∧ containsSub ("<footer>— - Narrator</footer>".toList)
        (buildFullHTML demoDoc ["foo".toList]) = true := by
  constructor
  · decide
  · decide

/-- Claim C1 (amended): in the end-to-end scenario the rendered document
contains exactly one page block, whose text is the escaped
`Hello, friend.`; the empty second page produces no block; and the
credit footer reads `— - Narrator`. -/
theorem claim1_theorem :
    countOcc ("<section class=\"page\">".toList)
        (buildFullHTML demoDoc ["foo".toList]) = 1
    ∧ containsSub ("<p>Hello, friend.</p>".toList)
        (buildFullHTML demoDoc ["foo".toList]) = true
    ∧ containsSub ("  <footer>— - Narrator</footer>\n".toList)
        (buildFullHTML demoDoc ["foo".toList]) = true := by
  refine ⟨?_, ?_, ?_⟩ <;> decide

/-- Claim C8 counterexample: after a run on the concrete network, the
`langTitles` collection is keyed by the language code `en_us`, which is
not an id of the discovered set `["foo"]` — refuting the claim that every
key of `langTitles` is a discovered item id. -/
theorem claim8_counterexample :
    (buildDoc demoNet ([] : Str) (discoverBookIds demoEntries)).langTitles.map
        Prod.fst = ["en_us".toList]
    ∧ discoverBookIds demoEntries = ["foo".toList]
    ∧ ¬ ("en_us".toList ∈ discoverBookIds demoEntries) := by
  refine ⟨?_, ?_, ?_⟩ <;> decide

/-- Claim C8 (amended): in the aggregate document produced by a
successful run, every key of `bookAuthors` is a discovered item id, the
keys of `books` are exactly the discovered ids in order (so an item with
no fetched content is retained as an empty entry, never dropped), and
the keys of `langTitles` are language codes from the fixed language set,
not item ids. -/
theorem claim8_theorem : ∀ (net : Network) (now : Str) (es : List DirEntry),
    net.listing = some (.jarr es) →
    (runMain net now =
      (0, [.booksJson (buildDoc net now (discoverBookIds es)),
           .booksFullHtml (buildFullHTML (buildDoc net now (discoverBookIds es))
             (discoverBookIds es))]))
  ∧ (∀ k ∈ (buildDoc net now (discoverBookIds es)).bookAuthors.map Prod.fst,
      k ∈ discoverBookIds es)
  ∧ ((buildDoc net now (discoverBookIds es)).books.map Prod.fst
      = discoverBookIds es)
  ∧ (∀ id ∈ discoverBookIds es,
      (∀ lang ∈ LANGS, net.bookContent id lang = none) →
      olookup (buildDoc net now (discoverBookIds es)).books id = some [])
  ∧ (∀ l ∈ (buildDoc net now (discoverBookIds es)).langTitles.map Prod.fst,
      l ∈ LANGS) := by
  intro net now es h
  refine ⟨runMain_arr net now es h, ?_, ?_, ?_, ?_⟩
  · intro k hk
    obtain ⟨p, hp, hpk⟩ := List.mem_map.mp hk
    rw [← hpk]
    exact buildAuthors_keys net (discoverBookIds es) p hp
  · exact buildBooks_keys net (discoverBookIds es)
  · intro id hid hno
    exact buildBooks_empty net (discoverBookIds es) id hid hno
  · exact buildLangTitles_keys net

/-- Claim C8 witness: the amended theorem instantiated at the concrete
network: the single discovered item `foo` is retained in `books` as an
empty entry even though none of its content fetches succeeded. -/
theorem claim8_witness :
    (buildDoc demoNet ([] : Str) (discoverBookIds demoEntries)).books.map Prod.fst
      = discoverBookIds demoEntries
    ∧ olookup (buildDoc demoNet ([] : Str) (discoverBookIds demoEntries)).books
        ("foo".toList) = some [] :=
  ⟨(claim8_theorem demoNet [] demoEntries rfl).2.2.1,
   (claim8_theorem demoNet [] demoEntries rfl).2.2.2.1 ("foo".toList) (by decide)
     (fun lang _ => rfl)⟩
